import Mathlib

/-!
Verification of the parameter-substitution core of the hotcommands service.

The program under study is `app/utils.py`:

    def substitute_parameters(query_text, parameters, values):
        for param in parameters:
            val = values.get(param.name, param.default)
            if val is None and param.required:
                raise ValueError(f"Missing required parameter: {param.name}")
            query_text = query_text.replace("\x7b\x7b" + param.name + "\x7d\x7d", str(val))
        return query_text

together with the `Parameter` shape of `app/schemas.py`.  Python strings are
modelled as lists of characters, Python values (`Any`) as the inductive
`Value` whose constructor `Value.none` models Python `None`, dictionaries as
association lists, and the raised `ValueError` as the error component of an
`Except` result.
-/

set_option maxHeartbeats 1000000

/-- Characters of a Python string. -/
abbrev Str := List Char

/-- A Python value as far as this program inspects one: `None`, a string,
an integer or a boolean.  `Value.none` models Python `None`. -/
inductive Value where
  | none
  | str (s : Str)
  | int (n : Int)
  | bool (b : Bool)
deriving DecidableEq, Repr

/-- Python `str(v)`: `None` prints as `None`, strings print as themselves,
integers in decimal, booleans as `True` / `False`. -/
def pyStr : Value → Str
  | Value.none => "None".toList
  | Value.str s => s
  | Value.int n => (toString n).toList
  | Value.bool true => "True".toList
  | Value.bool false => "False".toList

/-- The `Parameter` pydantic model of `app/schemas.py`, with the same field
defaults (`required = False`, `default = None`, `description = ""`,
`options = []`, `validation_regex = None`). -/
structure Parameter where
  name : Str
  type : Str
  required : Bool := false
  default : Value := Value.none
  description : Option Str := some []
  options : Option (List Value) := some []
  validation_regex : Option Str := Option.none
deriving DecidableEq, Repr

/-- The error raised by `substitute_parameters`
(`ValueError("Missing required parameter: " + name)`), identified by the
parameter name it carries. -/
structure MissingRequiredParameter where
  name : Str
deriving DecidableEq, Repr

/-- The pattern built by the f-string in the source: two opening braces,
the parameter name, two closing braces. -/
def placeholder (name : Str) : Str :=
  '{' :: '{' :: (name ++ ['}', '}'])

/-- Python `s.replace(old, new)` for the empty `old`: `new` is inserted
before every character and once at the end. -/
def replaceEmptyPat (new : Str) : Str → Str
  | [] => new
  | c :: rest => new ++ c :: replaceEmptyPat new rest

/-- Fuelled left-to-right scanner implementing Python `str.replace` for a
non-empty pattern: at each position, if the pattern starts here, emit the
replacement and resume after the matched occurrence (replaced text is not
rescanned); otherwise emit the character and move one position right. -/
def replaceAux (old new : Str) : Nat → Str → Str
  | 0, s => s
  | _ + 1, [] => []
  | fuel + 1, c :: rest =>
    if old.isPrefixOf (c :: rest) then
      new ++ replaceAux old new fuel (rest.drop (old.length - 1))
    else
      c :: replaceAux old new fuel rest

/-- Python `s.replace(old, new)`: replace every non-overlapping occurrence
of `old` in `s`, leftmost first, by `new`. -/
def pyReplace (s old new : Str) : Str :=
  if old.isEmpty then replaceEmptyPat new s else replaceAux old new s.length s

/-- `app/utils.py`, `substitute_parameters`: fold over the declarations in
order; resolve each value as `values.get(param.name, param.default)`; raise
on a required parameter whose resolved value is `None`; otherwise replace
all occurrences of the parameter's placeholder by the stringified value. -/
def substitute_parameters (query_text : Str) (parameters : List Parameter)
    (values : List (Str × Value)) : Except MissingRequiredParameter Str :=
  match parameters with
  | [] => Except.ok query_text
  | param :: rest =>
    let val := (values.lookup param.name).getD param.default
    if val = Value.none ∧ param.required = true then
      Except.error ⟨param.name⟩
    else
      substitute_parameters
        (pyReplace query_text (placeholder param.name) (pyStr val)) rest values

/-- `values.get(param.name, param.default)` of the source. -/
def resolveVal (values : List (Str × Value)) (p : Parameter) : Value :=
  (values.lookup p.name).getD p.default

/-- The guard of the `raise` in the source: the resolved value is `None`
and the parameter is required. -/
def isMissing (values : List (Str × Value)) (p : Parameter) : Bool :=
  decide (resolveVal values p = Value.none) && p.required

/-- The first declaration, in declaration order, whose required value is
unresolved — the declaration whose name the raised error carries. -/
def firstMissing (values : List (Str × Value)) : List Parameter → Option Parameter
  | [] => Option.none
  | p :: rest => if isMissing values p then some p else firstMissing values rest

/-- One loop iteration of the source on the accumulated string: replace all
occurrences of the parameter's placeholder by the stringified resolved
value. -/
def substStep (values : List (Str × Value)) (acc : Str) (p : Parameter) : Str :=
  pyReplace acc (placeholder p.name) (pyStr (resolveVal values p))

/-- Does `pat` occur as a contiguous substring of `s`? -/
def isSubstringOf (pat s : Str) : Bool :=
  match s with
  | [] => pat.isEmpty
  | c :: rest => pat.isPrefixOf (c :: rest) || isSubstringOf pat rest

/-- A name free of brace characters, so that its placeholder contains
braces exactly at its two ends. -/
def braceFree (s : Str) : Bool :=
  s.all fun c => !(c == '{') && !(c == '}')

theorem replaceAux_fuel (old new : Str) :
    ∀ (f₁ f₂ : Nat) (s : Str), s.length ≤ f₁ → s.length ≤ f₂ →
      replaceAux old new f₁ s = replaceAux old new f₂ s := by
  intro f₁
  induction f₁ with
  | zero =>
    intro f₂ s h₁ _
    have hs : s = [] := List.eq_nil_of_length_eq_zero (Nat.le_zero.mp h₁)
    subst hs
    cases f₂ <;> rfl
  | succ f ih =>
    intro f₂ s h₁ h₂
    cases s with
    | nil => cases f₂ <;> rfl
    | cons c rest =>
      cases f₂ with
      | zero => simp at h₂
      | succ g =>
        simp only [replaceAux]
        split
        · have hd : (rest.drop (old.length - 1)).length ≤ rest.length := by
            simp [List.length_drop]
          rw [ih g (rest.drop (old.length - 1))
            (Nat.le_trans hd (Nat.le_of_succ_le_succ h₁))
            (Nat.le_trans hd (Nat.le_of_succ_le_succ h₂))]
        · rw [ih g rest (Nat.le_of_succ_le_succ h₁) (Nat.le_of_succ_le_succ h₂)]

theorem pyReplace_nil {old : Str} (new : Str) (hne : old ≠ []) :
    pyReplace [] old new = [] := by
  cases old with
  | nil => exact absurd rfl hne
  | cons a as => rfl

theorem pyReplace_cons_pos {old : Str} {c : Char} {rest : Str} (new : Str)
    (hne : old ≠ []) (h : old.isPrefixOf (c :: rest) = true) :
    pyReplace (c :: rest) old new =
      new ++ pyReplace (rest.drop (old.length - 1)) old new := by
  have hemp : old.isEmpty = false := by
    cases old with
    | nil => exact absurd rfl hne
    | cons a as => rfl
  simp only [pyReplace, hemp, Bool.false_eq_true, if_false, List.length_cons]
  simp only [replaceAux, h, if_true]
  rw [replaceAux_fuel old new rest.length (rest.drop (old.length - 1)).length
    (rest.drop (old.length - 1)) (by simp [List.length_drop]) (Nat.le_refl _)]

theorem pyReplace_cons_neg {old : Str} {c : Char} {rest : Str} (new : Str)
    (hne : old ≠ []) (h : old.isPrefixOf (c :: rest) = false) :
    pyReplace (c :: rest) old new = c :: pyReplace rest old new := by
  have hemp : old.isEmpty = false := by
    cases old with
    | nil => exact absurd rfl hne
    | cons a as => rfl
  simp only [pyReplace, hemp, Bool.false_eq_true, if_false, List.length_cons]
  simp only [replaceAux, h, Bool.false_eq_true, if_false]

theorem isPrefixOf_iff {l₁ l₂ : Str} :
    l₁.isPrefixOf l₂ = true ↔ ∃ t, l₂ = l₁ ++ t := by
  induction l₁ generalizing l₂ with
  | nil => simp [List.isPrefixOf]
  | cons a as ih =>
    cases l₂ with
    | nil => simp [List.isPrefixOf]
    | cons b bs =>
      simp only [List.isPrefixOf, Bool.and_eq_true, beq_iff_eq, ih,
        List.cons_append, List.cons.injEq]
      constructor
      · rintro ⟨rfl, t, rfl⟩
        exact ⟨t, rfl, rfl⟩
      · rintro ⟨t, rfl, rfl⟩
        exact ⟨rfl, t, rfl⟩

theorem isSubstringOf_iff {pat s : Str} :
    isSubstringOf pat s = true ↔ ∃ x y, s = x ++ pat ++ y := by
  induction s with
  | nil =>
    cases pat <;>
      simp [isSubstringOf, List.isEmpty, eq_comm, List.append_eq_nil]
  | cons c rest ih =>
    simp only [isSubstringOf, Bool.or_eq_true, isPrefixOf_iff, ih]
    constructor
    · rintro (⟨t, ht⟩ | ⟨x, y, rfl⟩)
      · exact ⟨[], t, by simpa using ht⟩
      · exact ⟨c :: x, y, by simp⟩
    · rintro ⟨x, y, hxy⟩
      cases x with
      | nil => exact Or.inl ⟨y, by simpa using hxy⟩
      | cons d x' =>
        simp only [List.cons_append, List.cons.injEq] at hxy
        exact Or.inr ⟨x', y, hxy.2⟩

theorem pyReplace_of_not_sub {old s : Str} (new : Str) (hne : old ≠ [])
    (h : isSubstringOf old s = false) : pyReplace s old new = s := by
  induction s with
  | nil => exact pyReplace_nil new hne
  | cons c rest ih =>
    simp only [isSubstringOf, Bool.or_eq_false_iff] at h
    rw [pyReplace_cons_neg new hne h.1, ih h.2]

theorem placeholder_ne_nil (name : Str) : placeholder name ≠ [] := by
  simp [placeholder]

theorem substitute_characterization (ps : List Parameter) :
    ∀ (t : Str) (vs : List (Str × Value)),
      substitute_parameters t ps vs =
        match firstMissing vs ps with
        | some p => Except.error ⟨p.name⟩
        | Option.none => Except.ok (ps.foldl (substStep vs) t) := by
  induction ps with
  | nil => intro t vs; rfl
  | cons p rest ih =>
    intro t vs
    show (if resolveVal vs p = Value.none ∧ p.required = true
          then Except.error ⟨p.name⟩
          else substitute_parameters
            (pyReplace t (placeholder p.name) (pyStr (resolveVal vs p))) rest vs) = _
    by_cases hc : resolveVal vs p = Value.none ∧ p.required = true
    · rw [if_pos hc]
      have hm : isMissing vs p = true := by simp [isMissing, hc.1, hc.2]
      simp [firstMissing, hm]
    · rw [if_neg hc]
      have hm : isMissing vs p = false := by
        rw [← Bool.not_eq_true]
        intro hmt
        exact hc (by simpa [isMissing, Bool.and_eq_true, decide_eq_true_iff] using hmt)
      simp only [firstMissing, hm, Bool.false_eq_true, if_false, List.foldl_cons]
      exact ih (pyReplace t (placeholder p.name) (pyStr (resolveVal vs p))) vs

theorem firstMissing_eq_none {vs : List (Str × Value)} {ps : List Parameter} :
    firstMissing vs ps = Option.none ↔ ∀ p ∈ ps, isMissing vs p = false := by
  induction ps with
  | nil => simp [firstMissing]
  | cons p rest ih =>
    by_cases h : isMissing vs p = true
    · simp [firstMissing, h]
    · rw [Bool.not_eq_true] at h
      simp [firstMissing, h, ih]

theorem firstMissing_append {vs : List (Str × Value)} {pre : List Parameter}
    {p : Parameter} {rest : List Parameter}
    (hpre : ∀ q ∈ pre, isMissing vs q = false) (hp : isMissing vs p = true) :
    firstMissing vs (pre ++ p :: rest) = some p := by
  induction pre with
  | nil => simp [firstMissing, hp]
  | cons q pre' ih =>
    have hq : isMissing vs q = false := hpre q (by simp)
    simp only [List.cons_append, firstMissing, hq, Bool.false_eq_true, if_false]
    exact ih (fun r hr => hpre r (by simp [hr]))

theorem foldl_substStep_id {vs : List (Str × Value)} {ps : List Parameter} {t : Str}
    (h : ∀ p ∈ ps, isSubstringOf (placeholder p.name) t = false) :
    ps.foldl (substStep vs) t = t := by
  induction ps with
  | nil => rfl
  | cons p rest ih =>
    have h1 : substStep vs t p = t :=
      pyReplace_of_not_sub _ (placeholder_ne_nil _) (h p (by simp))
    rw [List.foldl_cons, h1]
    exact ih (fun q hq => h q (by simp [hq]))

theorem placeholder_length (name : Str) :
    (placeholder name).length = name.length + 4 := by
  simp [placeholder]

theorem braceFree_spec {s : Str} (h : braceFree s = true) :
    ∀ c ∈ s, c ≠ '{' ∧ c ≠ '}' := by
  intro c hc
  have hb := List.all_eq_true.mp h c hc
  simp only [Bool.and_eq_true, Bool.not_eq_true', beq_eq_false_iff_ne] at hb
  exact hb

theorem getElem_of_drop_eq {v w : Str} {j k : Nat} (h : v.drop j = w)
    (hk : k < w.length) (hjv : j + k < v.length) :
    v[j + k] = w[k] := by
  rw [← List.getElem_drop]
  simp only [h]
  rw [h]
  exact hk

theorem placeholder_getElem_brace {a : Str} (ha : braceFree a = true)
    {m : Nat} (hm : m < (placeholder a).length)
    (h : (placeholder a)[m] = '{') : m ≤ 1 := by
  by_contra hgt
  push_neg at hgt
  obtain ⟨k, rfl⟩ : ∃ k, m = k + 2 := ⟨m - 2, by omega⟩
  have hm' : k + 2 < (placeholder a).length := hm
  rw [placeholder_length] at hm'
  have hka : k < (a ++ ['}', '}']).length := by simp; omega
  have hx : (placeholder a)[k + 2] = (a ++ ['}', '}'])[k] := by
    simp [placeholder]
  rw [hx] at h
  by_cases hk : k < a.length
  · rw [List.getElem_append_left hk] at h
    exact (braceFree_spec ha _ (List.getElem_mem hk)).1 h
  · push_neg at hk
    rw [List.getElem_append_right hk] at h
    have hmem := List.getElem_mem (show k - a.length < (['}', '}'] : Str).length by simp; omega)
    rw [h] at hmem
    simp at hmem

theorem placeholder_prefix_eq {a u : Str} (hu : braceFree u = true)
    (h : ∃ t, placeholder u = placeholder a ++ t) : a = u := by
  obtain ⟨t, ht⟩ := h
  simp only [placeholder, List.cons_append, List.cons.injEq, true_and] at ht
  have hlen : u.length + 2 = a.length + 2 + t.length := by
    have := congrArg List.length ht
    simp only [List.length_append, List.length_cons, List.length_nil] at this
    omega
  have hal : a.length ≤ u.length := by omega
  have htake : u.take a.length = a := by
    have h1 := congrArg (List.take a.length) ht
    rw [List.take_append_of_le_length hal,
      List.take_append_of_le_length (by simp : a.length ≤ (a ++ ['}', '}']).length),
      List.take_append_of_le_length (Nat.le_refl _), List.take_length a] at h1
    exact h1
  by_cases haltu : a.length < u.length
  · exfalso
    have hdrop := congrArg (List.drop a.length) ht
    rw [List.drop_append_of_le_length hal,
      List.drop_append_of_le_length (by simp : a.length ≤ (a ++ ['}', '}']).length),
      List.drop_append_of_le_length (Nat.le_refl _), List.drop_length a] at hdrop
    cases hud : u.drop a.length with
    | nil =>
      have := congrArg List.length hud
      simp only [List.length_drop, List.length_nil] at this
      omega
    | cons c cs =>
      rw [hud] at hdrop
      simp only [List.nil_append, List.cons_append, List.cons.injEq] at hdrop
      have hcu : c ∈ u := by
        have hm2 : c ∈ u.take a.length ++ u.drop a.length := by
          rw [hud]
          exact List.mem_append.mpr (Or.inr (List.mem_cons_self c cs))
        rwa [List.take_append_drop] at hm2
      exact (braceFree_spec hu c hcu).2 hdrop.1
  · have hueq : u.length = a.length := by omega
    rw [← hueq, List.take_length u] at htake
    exact htake.symm

theorem placeholder_no_cross {a u : Str} (ha : braceFree a = true)
    (hu : braceFree u = true) (hne : a ≠ u) {v : Str} {j : Nat}
    (hva : ∃ t, v = placeholder a ++ t)
    (hvu : ∃ t, v.drop j = placeholder u ++ t) :
    (placeholder a).length ≤ j := by
  by_contra hlt
  push_neg at hlt
  obtain ⟨t, rfl⟩ := hva
  obtain ⟨t', ht'⟩ := hvu
  rcases Nat.eq_zero_or_pos j with rfl | hj
  · rw [List.drop_zero] at ht'
    by_cases hle : (placeholder a).length ≤ (placeholder u).length
    · apply hne
      apply placeholder_prefix_eq hu
      refine ⟨(placeholder u).drop (placeholder a).length, ?_⟩
      have h1 : placeholder a = (placeholder u).take (placeholder a).length := by
        have h2 := congrArg (List.take (placeholder a).length) ht'
        rwa [List.take_left, List.take_append_of_le_length hle] at h2
      conv_lhs => rw [← List.take_append_drop (placeholder a).length (placeholder u), ← h1]
    · push_neg at hle
      apply absurd (placeholder_prefix_eq ha ?_).symm hne
      refine ⟨(placeholder a).drop (placeholder u).length, ?_⟩
      have h1 : placeholder u = (placeholder a).take (placeholder u).length := by
        have h2 := congrArg (List.take (placeholder u).length) ht'.symm
        rwa [List.take_left, List.take_append_of_le_length (Nat.le_of_lt hle)] at h2
      conv_lhs => rw [← List.take_append_drop (placeholder u).length (placeholder a), ← h1]
  · have hPa4 : (placeholder a).length = a.length + 4 := placeholder_length a
    have hPu4 : (placeholder u).length = u.length + 4 := placeholder_length u
    have hBlen : (placeholder a ++ t).length = a.length + 4 + t.length := by
      rw [List.length_append, hPa4]
    have hlt4 : j < a.length + 4 := hPa4 ▸ hlt
    have hjB : j < (placeholder a ++ t).length := by omega
    have hlen' : j + (placeholder u).length + t'.length = (placeholder a ++ t).length := by
      have h2 := congrArg List.length ht'
      rw [List.length_drop, List.length_append, List.length_append, hPa4, hPu4] at h2
      rw [List.length_append, hPa4, hPu4]
      omega
    have hju := getElem_of_drop_eq ht'
      (show 0 < (placeholder u ++ t').length by rw [List.length_append, hPu4]; omega)
      (show j + 0 < (placeholder a ++ t).length by omega)
    have hb0 : 0 < (placeholder u ++ t').length := by
      rw [List.length_append, hPu4]; omega
    have hju0 : (placeholder u ++ t')[0] = '{' := by
      simp [placeholder]
    rw [hju0] at hju
    simp only [Nat.add_zero] at hju
    rw [List.getElem_append_left hlt] at hju
    have hj1 : j ≤ 1 := placeholder_getElem_brace ha hlt hju
    have hjeq : j = 1 := by omega
    subst hjeq
    have hju2 := getElem_of_drop_eq ht'
      (show 1 < (placeholder u ++ t').length by rw [List.length_append, hPu4]; omega)
      (show 1 + 1 < (placeholder a ++ t).length by omega)
    have hb1 : 1 < (placeholder u ++ t').length := by
      rw [List.length_append, hPu4]; omega
    have hju1 : (placeholder u ++ t')[1] = '{' := by
      simp [placeholder]
    rw [hju1] at hju2
    rw [List.getElem_append_left (show 1 + 1 < (placeholder a).length by omega)] at hju2
    have := placeholder_getElem_brace ha
      (show 1 + 1 < (placeholder a).length by omega) hju2
    omega

theorem pyReplace_append_no_match {old new : Str} (hne : old ≠ []) :
    ∀ (u v : Str), (∀ j, j < u.length → old.isPrefixOf ((u ++ v).drop j) = false) →
      pyReplace (u ++ v) old new = u ++ pyReplace v old new := by
  intro u
  induction u with
  | nil => intro v _; simp
  | cons c u' ih =>
    intro v h
    have h0 : old.isPrefixOf (c :: (u' ++ v)) = false := by
      have h1 := h 0 (by simp)
      simpa using h1
    have h' : ∀ j, j < u'.length → old.isPrefixOf ((u' ++ v).drop j) = false := by
      intro j hj
      have h2 := h (j + 1) (by simp only [List.length_cons]; omega)
      simpa using h2
    rw [List.cons_append, pyReplace_cons_neg new hne h0, ih v h']
    rfl

theorem pyReplace_skip_lead {old new q y : Str} (hne : old ≠ [])
    (NO2 : ∀ (v : Str) (j : Nat), (∃ t, v = q ++ t) → (∃ t, v.drop j = old ++ t) →
      q.length ≤ j) :
    pyReplace (q ++ y) old new = q ++ pyReplace y old new := by
  apply pyReplace_append_no_match hne
  intro j hj
  rw [← Bool.not_eq_true]
  intro hpre
  obtain ⟨t, ht⟩ := isPrefixOf_iff.mp hpre
  have := NO2 (q ++ y) j ⟨y, rfl⟩ ⟨t, ht⟩
  omega

theorem pyReplace_confined {old new q : Str} (hne : old ≠ []) (_hqne : q ≠ [])
    (NO1 : ∀ (v : Str) (j : Nat), (∃ t, v = old ++ t) → (∃ t, v.drop j = q ++ t) →
      old.length ≤ j)
    (NO2 : ∀ (v : Str) (j : Nat), (∃ t, v = q ++ t) → (∃ t, v.drop j = old ++ t) →
      q.length ≤ j) :
    ∀ (n : Nat) (x y : Str), x.length ≤ n →
      ∃ x', pyReplace (x ++ (q ++ y)) old new = x' ++ (q ++ pyReplace y old new) := by
  intro n
  induction n with
  | zero =>
    intro x y hx
    have hx0 : x = [] := List.eq_nil_of_length_eq_zero (Nat.le_zero.mp hx)
    subst hx0
    exact ⟨[], pyReplace_skip_lead hne NO2⟩
  | succ n ih =>
    intro x y hx
    cases x with
    | nil => exact ⟨[], pyReplace_skip_lead hne NO2⟩
    | cons c x'' =>
      have hold1 : 1 ≤ old.length := List.length_pos.mpr hne
      have hx' : x''.length ≤ n := by simp only [List.length_cons] at hx; omega
      by_cases hp : old.isPrefixOf (c :: (x'' ++ (q ++ y))) = true
      · obtain ⟨t, ht⟩ := isPrefixOf_iff.mp hp
        have hdropq : ((c :: x'') ++ (q ++ y)).drop (x''.length + 1) = q ++ y :=
          List.drop_left' (by simp)
        have hol : old.length ≤ x''.length + 1 :=
          NO1 ((c :: x'') ++ (q ++ y)) (x''.length + 1) ⟨t, ht⟩ ⟨y, hdropq⟩
        rw [List.cons_append, pyReplace_cons_pos new hne hp]
        have hsplit : (x'' ++ (q ++ y)).drop (old.length - 1) =
            x''.drop (old.length - 1) ++ (q ++ y) :=
          List.drop_append_of_le_length (by omega)
        rw [hsplit]
        obtain ⟨x₁, hx₁⟩ := ih (x''.drop (old.length - 1)) y
          (by simp only [List.length_drop]; omega)
        rw [hx₁]
        exact ⟨new ++ x₁, by rw [List.append_assoc]⟩
      · have hpf : old.isPrefixOf (c :: (x'' ++ (q ++ y))) = false := by
          rwa [Bool.not_eq_true] at hp
        rw [List.cons_append, pyReplace_cons_neg new hne hpf]
        obtain ⟨x₁, hx₁⟩ := ih x'' y hx'
        rw [hx₁]
        exact ⟨c :: x₁, rfl⟩

theorem pyReplace_preserves_sub {old new q s : Str} (hne : old ≠ []) (hqne : q ≠ [])
    (NO1 : ∀ (v : Str) (j : Nat), (∃ t, v = old ++ t) → (∃ t, v.drop j = q ++ t) →
      old.length ≤ j)
    (NO2 : ∀ (v : Str) (j : Nat), (∃ t, v = q ++ t) → (∃ t, v.drop j = old ++ t) →
      q.length ≤ j)
    (hsub : isSubstringOf q s = true) :
    isSubstringOf q (pyReplace s old new) = true := by
  obtain ⟨x, y, rfl⟩ := isSubstringOf_iff.mp hsub
  rw [List.append_assoc]
  obtain ⟨x', hx'⟩ := pyReplace_confined hne hqne NO1 NO2 x.length x y (Nat.le_refl _)
  rw [hx']
  exact isSubstringOf_iff.mpr ⟨x', pyReplace y old new, by rw [List.append_assoc]⟩

theorem substStep_preserves {vs : List (Str × Value)} {p : Parameter} {u t : Str}
    (hbp : braceFree p.name = true) (hbu : braceFree u = true) (hne : p.name ≠ u)
    (hsub : isSubstringOf (placeholder u) t = true) :
    isSubstringOf (placeholder u) (substStep vs t p) = true :=
  pyReplace_preserves_sub (placeholder_ne_nil _) (placeholder_ne_nil _)
    (fun _ _ hv hd => placeholder_no_cross hbp hbu hne hv hd)
    (fun _ _ hv hd => placeholder_no_cross hbu hbp (Ne.symm hne) hv hd)
    hsub

theorem foldl_substStep_preserves {vs : List (Str × Value)} {ps : List Parameter}
    {u t : Str} (hb : ∀ p ∈ ps, braceFree p.name = true) (hbu : braceFree u = true)
    (hne : ∀ p ∈ ps, p.name ≠ u)
    (hsub : isSubstringOf (placeholder u) t = true) :
    isSubstringOf (placeholder u) (ps.foldl (substStep vs) t) = true := by
  induction ps generalizing t with
  | nil => exact hsub
  | cons p rest ih =>
    rw [List.foldl_cons]
    exact ih (fun q hq => hb q (by simp [hq])) (fun q hq => hne q (by simp [hq]))
      (substStep_preserves (hb p (by simp)) hbu (hne p (by simp)) hsub)

example : pyReplace ("a".toList ++ placeholder "x".toList ++ "b".toList ++ placeholder "x".toList)
    (placeholder "x".toList) "Q".toList = "aQbQ".toList := rfl

example : substitute_parameters (placeholder "x".toList)
    [{ name := "x".toList, type := "string".toList, required := true }]
    [("x".toList, Value.str "Q".toList)] = Except.ok "Q".toList := rfl

theorem substitute_cons (t : Str) (p : Parameter) (rest : List Parameter)
    (vs : List (Str × Value)) :
    substitute_parameters t (p :: rest) vs =
      if resolveVal vs p = Value.none ∧ p.required = true then Except.error ⟨p.name⟩
      else substitute_parameters
        (pyReplace t (placeholder p.name) (pyStr (resolveVal vs p))) rest vs := rfl

theorem isMissing_iff {vs : List (Str × Value)} {p : Parameter} :
    isMissing vs p = true ↔ resolveVal vs p = Value.none ∧ p.required = true := by
  simp [isMissing, Bool.and_eq_true, decide_eq_true_iff]

theorem firstMissing_some {vs : List (Str × Value)} {ps : List Parameter} {p : Parameter}
    (h : firstMissing vs ps = some p) : p ∈ ps ∧ isMissing vs p = true := by
  induction ps with
  | nil => simp [firstMissing] at h
  | cons q rest ih =>
    by_cases hq : isMissing vs q = true
    · simp only [firstMissing, hq, if_true, Option.some.injEq] at h
      subst h
      exact ⟨by simp, hq⟩
    · rw [Bool.not_eq_true] at hq
      simp only [firstMissing, hq, Bool.false_eq_true, if_false] at h
      obtain ⟨hmem, hmiss⟩ := ih h
      exact ⟨by simp [hmem], hmiss⟩

def declA : Parameter := { name := "a".toList, type := "string".toList, required := true }

def declB : Parameter := { name := "b".toList, type := "string".toList, required := true }

def declOptY : Parameter := { name := "y".toList, type := "string".toList }

def declDefD : Parameter :=
  { name := "a".toList, type := "string".toList, required := true,
    default := Value.str "D".toList }

def declV : Parameter :=
  { name := "a".toList, type := "string".toList, default := Value.str "V".toList }

/-- C1: for every template, ordered declaration list and value map in which
no required declaration is unresolved, `substitute_parameters` returns
exactly the left fold, over the declarations in order, of the step that
replaces every occurrence of the declaration's placeholder in the
accumulated string by the stringified value resolved as the supplied value
when the key is present, else the declaration's default. -/
theorem c1_substitute_eq_foldl (t : Str) (ps : List Parameter) (vs : List (Str × Value))
    (h : ∀ p ∈ ps, ¬(resolveVal vs p = Value.none ∧ p.required = true)) :
    substitute_parameters t ps vs = Except.ok (ps.foldl (substStep vs) t) := by
  have hfm : firstMissing vs ps = Option.none := by
    rw [firstMissing_eq_none]
    intro p hp
    rw [← Bool.not_eq_true]
    intro hmt
    exact h p hp (isMissing_iff.mp hmt)
  rw [substitute_characterization ps t vs, hfm]

theorem c1_substitute_eq_foldl_witness :
    substitute_parameters (placeholder "b".toList) [declB]
        [("b".toList, Value.str "X".toList)]
      = Except.ok ([declB].foldl (substStep [("b".toList, Value.str "X".toList)])
        (placeholder "b".toList)) :=
  c1_substitute_eq_foldl _ _ _ (by decide)

/-- C2 counterexample: with the single declaration `a` (required, no
default) and the value map mapping `a` to Python `None`, no declaration
lacks both an entry in the value map and a default — the condition the
claim gives for raising — yet `substitute_parameters` raises
`MissingRequiredParameter "a"`, so the claimed equivalence is false. -/
theorem c2_error_iff_counterexample :
    (∀ p ∈ [declA],
      ¬(([(("a".toList : Str), Value.none)].lookup p.name = (Option.none : Option Value))
        ∧ p.default = Value.none ∧ p.required = true)) ∧
    substitute_parameters (placeholder "a".toList) [declA] [("a".toList, Value.none)]
      = Except.error ⟨"a".toList⟩ :=
  ⟨by decide, rfl⟩

/-- C2 (amended): `substitute_parameters` raises an error if and only if
some declaration has `required = true` and a resolved value — the value
map entry when the key is present, else the default — equal to `None`;
when it raises, the error is `MissingRequiredParameter` carrying the name
of the first such declaration in declaration order, and no result string
is returned.  No other input causes an error. -/
theorem c2_amended_error_iff (t : Str) (ps : List Parameter) (vs : List (Str × Value)) :
    ((∃ e, substitute_parameters t ps vs = Except.error e)
      ↔ ∃ p ∈ ps, resolveVal vs p = Value.none ∧ p.required = true) ∧
    (∀ p, firstMissing vs ps = some p →
      substitute_parameters t ps vs = Except.error ⟨p.name⟩) := by
  have hchar := substitute_characterization ps t vs
  constructor
  · constructor
    · rintro ⟨e, he⟩
      cases hfm : firstMissing vs ps with
      | none =>
        rw [hchar, hfm] at he
        exact Except.noConfusion (show Except.ok (ps.foldl (substStep vs) t)
          = Except.error e from he)
      | some p =>
        obtain ⟨hmem, hmiss⟩ := firstMissing_some hfm
        exact ⟨p, hmem, isMissing_iff.mp hmiss⟩
    · rintro ⟨p, hp, hmiss⟩
      cases hfm : firstMissing vs ps with
      | none =>
        have := firstMissing_eq_none.mp hfm p hp
        rw [isMissing_iff.mpr hmiss] at this
        exact Bool.noConfusion this
      | some q =>
        exact ⟨⟨q.name⟩, by rw [hchar, hfm]⟩
  · intro p hfm
    rw [hchar, hfm]

theorem c2_amended_error_iff_witness :
    substitute_parameters (placeholder "a".toList) [declA] []
      = Except.error ⟨"a".toList⟩ :=
  (c2_amended_error_iff (placeholder "a".toList) [declA] []).2 declA (by decide)

/-- C3: on the concrete input with declarations `a` then `b` (both
required), template built of the two placeholders joined by a dash, and
values mapping `a` to the text of the `b` placeholder and `b` to `X`,
the first step rewrites the template to two `b` placeholders, and the
whole substitution succeeds with `X-X`. -/
theorem c3_sequential_rewrite :
    substStep [("a".toList, Value.str (placeholder "b".toList)),
        ("b".toList, Value.str "X".toList)]
      (placeholder "a".toList ++ "-".toList ++ placeholder "b".toList) declA
      = placeholder "b".toList ++ "-".toList ++ placeholder "b".toList ∧
    substitute_parameters
      (placeholder "a".toList ++ "-".toList ++ placeholder "b".toList) [declA, declB]
      [("a".toList, Value.str (placeholder "b".toList)), ("b".toList, Value.str "X".toList)]
      = Except.ok "X-X".toList :=
  ⟨rfl, rfl⟩

/-- C4 counterexample: the template `x` contains no placeholder of the
single declared parameter `a`, yet with an empty value map
`substitute_parameters` raises (the declaration is required with no
default) instead of returning the template unchanged, so the claim's
unconditional quantification over declarations and value maps is false. -/
theorem c4_noop_counterexample :
    isSubstringOf (placeholder declA.name) "x".toList = false ∧
    substitute_parameters "x".toList [declA] [] ≠ Except.ok "x".toList :=
  ⟨rfl, fun h => Except.noConfusion h⟩

/-- C4 (amended): for every template containing no placeholder of any
declared parameter name, and any declarations and value map on which
`substitute_parameters` returns a string at all (it can still raise
`MissingRequiredParameter`), the returned string is the template
unchanged. -/
theorem c4_amended_noop (t : Str) (ps : List Parameter) (vs : List (Str × Value))
    (hno : ∀ p ∈ ps, isSubstringOf (placeholder p.name) t = false)
    (hok : ∃ r, substitute_parameters t ps vs = Except.ok r) :
    substitute_parameters t ps vs = Except.ok t := by
  obtain ⟨r, hr⟩ := hok
  have hchar := substitute_characterization ps t vs
  cases hfm : firstMissing vs ps with
  | some p =>
    rw [hchar, hfm] at hr
    exact Except.noConfusion (show Except.error (⟨p.name⟩ : MissingRequiredParameter)
      = Except.ok r from hr)
  | none =>
    rw [hchar, hfm, foldl_substStep_id hno]

theorem c4_amended_noop_witness :
    substitute_parameters "x".toList [declOptY] [] = Except.ok "x".toList :=
  c4_amended_noop _ _ _ (by decide) ⟨"x".toList, rfl⟩

/-- C5: a declaration with `required = false`, no default and no entry in
the value map rewrites the accumulated string by replacing every
occurrence of its placeholder with the literal string `None` — not the
empty string, not the placeholder left verbatim, and not an error. -/
theorem c5_absent_optional_none (p : Parameter) (rest : List Parameter)
    (vs : List (Str × Value)) (t : Str)
    (hreq : p.required = false) (hdef : p.default = Value.none)
    (habs : vs.lookup p.name = Option.none) :
    substitute_parameters t (p :: rest) vs =
      substitute_parameters (pyReplace t (placeholder p.name) "None".toList) rest vs := by
  have hval : resolveVal vs p = Value.none := by simp [resolveVal, habs, hdef]
  rw [substitute_cons, if_neg (by simp [hreq]), hval]
  rfl

theorem c5_absent_optional_none_witness :
    substitute_parameters ("val=".toList ++ placeholder "y".toList) [declOptY] []
      = Except.ok "val=None".toList := by
  rw [c5_absent_optional_none declOptY [] [] ("val=".toList ++ placeholder "y".toList)
    rfl rfl rfl]
  rfl

/-- C6: a declaration whose name is absent from the value map but whose
default is non-null rewrites the accumulated string by replacing its
placeholder with the stringified default, and this step never raises —
even when the declaration is required. -/
theorem c6_default_fallback (p : Parameter) (rest : List Parameter)
    (vs : List (Str × Value)) (t : Str)
    (habs : vs.lookup p.name = Option.none) (hdef : p.default ≠ Value.none) :
    substitute_parameters t (p :: rest) vs =
      substitute_parameters (pyReplace t (placeholder p.name) (pyStr p.default)) rest vs := by
  have hval : resolveVal vs p = p.default := by simp [resolveVal, habs]
  rw [substitute_cons, if_neg (by rw [hval]; exact fun hc => hdef hc.1), hval]

theorem c6_default_fallback_witness :
    substitute_parameters ("a=".toList ++ placeholder "a".toList) [declDefD] []
      = Except.ok "a=D".toList := by
  rw [c6_default_fallback declDefD [] [] ("a=".toList ++ placeholder "a".toList)
    rfl (by decide)]
  rfl

def declBrace : Parameter :=
  { name := "unknown".toList ++ ['}', '}', '{', '{'] ++ "x".toList,
    type := "string".toList, default := Value.str "V".toList }

/-- C7 counterexample: the template is the placeholder of the declared
name `unknown` followed by two closing braces, two opening braces, `x` —
a single declaration whose own placeholder is the whole template.  The
template contains the placeholder-shaped substring for the undeclared name
`unknown`, but substitution replaces the whole template with `V`, so that
substring is not left verbatim in the returned string. -/
theorem c7_passthrough_counterexample :
    isSubstringOf (placeholder "unknown".toList) (placeholder declBrace.name) = true ∧
    declBrace.name ≠ "unknown".toList ∧
    substitute_parameters (placeholder declBrace.name) [declBrace] []
      = Except.ok "V".toList ∧
    isSubstringOf (placeholder "unknown".toList) "V".toList = false :=
  ⟨rfl, by decide, rfl, rfl⟩

/-- C7 (amended): provided every declared name and the undeclared name `u`
contain no brace characters, every occurrence of the placeholder of `u` —
a name matching no declaration — survives as a substring of any string
`substitute_parameters` returns, and an error can only arise from a
required declaration whose resolved value is `None`, never from the
presence of such a placeholder. -/
theorem c7_amended_passthrough (t : Str) (ps : List Parameter) (vs : List (Str × Value))
    (u : Str) (hb : ∀ p ∈ ps, braceFree p.name = true) (hbu : braceFree u = true)
    (hne : ∀ p ∈ ps, p.name ≠ u)
    (hocc : isSubstringOf (placeholder u) t = true) :
    (∀ r, substitute_parameters t ps vs = Except.ok r →
      isSubstringOf (placeholder u) r = true) ∧
    (∀ e, substitute_parameters t ps vs = Except.error e →
      ∃ p ∈ ps, resolveVal vs p = Value.none ∧ p.required = true) := by
  have hchar := substitute_characterization ps t vs
  constructor
  · intro r hr
    cases hfm : firstMissing vs ps with
    | some p =>
      rw [hchar, hfm] at hr
      exact Except.noConfusion (show Except.error (⟨p.name⟩ : MissingRequiredParameter)
        = Except.ok r from hr)
    | none =>
      rw [hchar, hfm] at hr
      have hr' : Except.ok (ps.foldl (substStep vs) t) = Except.ok r := hr
      rw [← Except.ok.inj hr']
      exact foldl_substStep_preserves hb hbu hne hocc
  · intro e he
    cases hfm : firstMissing vs ps with
    | none =>
      rw [hchar, hfm] at he
      exact Except.noConfusion (show Except.ok (ps.foldl (substStep vs) t)
        = Except.error e from he)
    | some p =>
      obtain ⟨hmem, hmiss⟩ := firstMissing_some hfm
      exact ⟨p, hmem, isMissing_iff.mp hmiss⟩

theorem c7_amended_passthrough_witness :
    isSubstringOf (placeholder "unknown".toList)
      (placeholder "unknown".toList ++ "-V".toList) = true :=
  (c7_amended_passthrough
      (placeholder "unknown".toList ++ "-".toList ++ placeholder "a".toList)
      [declV] [] "unknown".toList (by decide) (by decide) (by decide) (by decide)).1
    (placeholder "unknown".toList ++ "-V".toList) rfl

/-- C8: when the value map explicitly maps a required declaration's name
to Python `None` and the declaration has no non-null default — and all
earlier declarations resolve — `substitute_parameters` raises
`MissingRequiredParameter` for that name even though the key was
supplied: the check tests the nullness of the resolved value, not the
presence of the key. -/
theorem c8_null_entry_raises (pre : List Parameter) (p : Parameter)
    (rest : List Parameter) (vs : List (Str × Value)) (t : Str)
    (hpre : ∀ q ∈ pre, isMissing vs q = false)
    (hlook : vs.lookup p.name = some Value.none)
    (hreq : p.required = true) (_hdef : p.default = Value.none) :
    substitute_parameters t (pre ++ p :: rest) vs = Except.error ⟨p.name⟩ := by
  have hmiss : isMissing vs p = true :=
    isMissing_iff.mpr ⟨by simp [resolveVal, hlook], hreq⟩
  rw [substitute_characterization, firstMissing_append hpre hmiss]

theorem c8_null_entry_raises_witness :
    substitute_parameters (placeholder "a".toList) [declA] [("a".toList, Value.none)]
      = Except.error ⟨"a".toList⟩ :=
  c8_null_entry_raises [] declA [] [("a".toList, Value.none)] (placeholder "a".toList)
    (by decide) rfl rfl rfl

/-- C9: value-map entries whose keys match no declared name have no
effect: two value maps whose lookups agree on every declared parameter
name produce the same outcome — the same result string or the same
error. -/
theorem c9_unreferenced_keys_ignored (t : Str) (ps : List Parameter)
    (vs1 vs2 : List (Str × Value))
    (h : ∀ p ∈ ps, vs1.lookup p.name = vs2.lookup p.name) :
    substitute_parameters t ps vs1 = substitute_parameters t ps vs2 := by
  induction ps generalizing t with
  | nil => rfl
  | cons p rest ih =>
    rw [substitute_cons, substitute_cons]
    have hv : resolveVal vs1 p = resolveVal vs2 p := by
      simp [resolveVal, h p (by simp)]
    rw [hv]
    by_cases hc : resolveVal vs2 p = Value.none ∧ p.required = true
    · rw [if_pos hc, if_pos hc]
    · rw [if_neg hc, if_neg hc]
      exact ih _ (fun q hq => h q (by simp [hq]))

theorem c9_unreferenced_keys_ignored_witness :
    substitute_parameters (placeholder "a".toList) [declA]
      [("a".toList, Value.str "1".toList), ("junk".toList, Value.str "z".toList)]
      = substitute_parameters (placeholder "a".toList) [declA]
      [("a".toList, Value.str "1".toList)] :=
  c9_unreferenced_keys_ignored _ _ _ _ (by decide)

/-- Agreement on the only three `Parameter` fields `substitute_parameters`
ever consults. -/
def coreAgree (p q : Parameter) : Prop :=
  p.name = q.name ∧ p.required = q.required ∧ p.default = q.default

/-- C10: the outcome of `substitute_parameters` is independent of the
`type`, `description`, `options` and `validation_regex` fields: two
declaration lists agreeing positionwise on `name`, `required` and
`default` produce the same result string or the same error. -/
theorem c10_unused_fields_irrelevant (t : Str) (vs : List (Str × Value))
    (ps1 ps2 : List Parameter) (h : List.Forall₂ coreAgree ps1 ps2) :
    substitute_parameters t ps1 vs = substitute_parameters t ps2 vs := by
  induction h generalizing t with
  | nil => rfl
  | @cons p q ps1' ps2' hpq _ ih =>
    obtain ⟨hn, hr, hd⟩ := hpq
    rw [substitute_cons, substitute_cons]
    have hv : resolveVal vs p = resolveVal vs q := by
      rw [resolveVal, resolveVal, hn, hd]
    rw [hv, hn, hr]
    by_cases hc : resolveVal vs q = Value.none ∧ q.required = true
    · rw [if_pos hc, if_pos hc]
    · rw [if_neg hc, if_neg hc]
      exact ih _

def declAlt : Parameter :=
  { name := "a".toList, type := "integer".toList, required := true,
    description := Option.none, options := some [Value.int 1],
    validation_regex := some "x".toList }

theorem c10_unused_fields_irrelevant_witness :
    substitute_parameters (placeholder "a".toList) [declA]
      [("a".toList, Value.str "1".toList)]
      = substitute_parameters (placeholder "a".toList) [declAlt]
      [("a".toList, Value.str "1".toList)] :=
  c10_unused_fields_irrelevant _ _ _ _
    (List.Forall₂.cons ⟨rfl, rfl, rfl⟩ List.Forall₂.nil)
